import Mathlib

/-!
Shallow embedding of the TikTok Order Processor (`src/index.tsx`).

The core transform (`processFile` and its helpers `formatZip`, `formatPhone`,
`calculateProduct`, `findHeaderRow`) is a pure computation over the rows read
from the spreadsheet.  We model a raw row as an association list from column
identifiers ("A", "AW", ...) to string cell values, mirroring
`XLSX.utils.sheet_to_json(worksheet, { header: 'A' })`, where absent cells are
simply missing keys.  JavaScript-specific behaviours (`String(undefined)`,
falsiness of `""`, `parseInt`, global `String.replace`, regex
`/^(.*)\*(\d+)$/`) are modelled explicitly below.
-/

set_option maxHeartbeats 2000000

namespace TikTokOrderProcessor

/-- A raw spreadsheet row: ordered association list from column id to cell text. -/
abbrev RawRow := List (String × String)

/-! ### JS string primitives -/

/-- `charsPre p h` : `p` is a leading segment of `h`. -/
def charsPre : List Char → List Char → Bool
  | [], _ => true
  | _ :: _, [] => false
  | p :: ps, h :: hs => p == h && charsPre ps hs

/-- `charsSub pat hay` : `pat` occurs contiguously inside `hay`. -/
def charsSub (pat : List Char) : List Char → Bool
  | [] => charsPre pat []
  | h :: hs => charsPre pat (h :: hs) || charsSub pat hs

/-- JS `hay.includes(pat)`. -/
def strIncludes (hay pat : String) : Bool := charsSub pat.toList hay.toList

/-- JS `s.toLowerCase()` (ASCII range; the keywords used are ASCII or Japanese,
and Japanese characters are unaffected by lower-casing). -/
def strToLower (s : String) : String := String.mk (s.toList.map Char.toLower)

/-- Characters removed by JS `String.prototype.trim`. -/
def trimChars (cs : List Char) : List Char :=
  ((cs.dropWhile Char.isWhitespace).reverse.dropWhile Char.isWhitespace).reverse

/-- JS `s.trim()`. -/
def strTrim (s : String) : String := String.mk (trimChars s.toList)

/-- JS `String(v)` for a possibly-`undefined` cell value. -/
def jsString : Option String → String
  | none => "undefined"
  | some s => s

/-- JS `String(v || "")` for a possibly-`undefined` cell value
(`undefined` and `""` are both falsy). -/
def jsOrEmptyV (v : Option String) : String := v.getD ""

/-- JS falsiness of a possibly-`undefined` string cell. -/
def falsy (v : Option String) : Bool := v.getD "" == ""

/-- JS `row[c]`: first binding of column `c` (keys are unique in practice). -/
def getCell (row : RawRow) (c : String) : Option String :=
  (row.find? (fun e => e.1 == c)).map (·.2)

/-- `row[columnMap.f]` where the column itself may be `undefined`. -/
def getCellO (row : RawRow) : Option String → Option String
  | none => none
  | some c => getCell row c

/-- JS `String(row[c] || "")`. -/
def jsOrEmpty (row : RawRow) (c : String) : String := jsOrEmptyV (getCell row c)

/-- JS `Array.prototype.join(sep)`. -/
def joinSep (sep : String) : List String → String
  | [] => ""
  | [x] => x
  | x :: y :: xs => x ++ sep ++ joinSep sep (y :: xs)

/-- Numeric value of a list of decimal digit characters. -/
def natOfDigits (ds : List Char) : Nat :=
  ds.foldl (fun a c => a * 10 + (c.toNat - 48)) 0

/-- JS `parseInt(s, 10)`: skip leading whitespace, optional sign, parse the
leading decimal-digit run; `none` models `NaN`. -/
def jsParseInt (s : String) : Option Int :=
  let core : List Char → Option Nat := fun l =>
    let ds := l.takeWhile Char.isDigit
    if ds.isEmpty then none else some (natOfDigits ds)
  match s.toList.dropWhile Char.isWhitespace with
  | '-' :: rest => (core rest).map (fun n => -(n : Int))
  | '+' :: rest => (core rest).map (fun n => (n : Int))
  | rest => (core rest).map (fun n => (n : Int))

/-- Remove every occurrence of the literal `"(+81)"`, scanning left to right,
continuing after each removal: JS `s.replace(/\(\+81\)/g, '')`. -/
def removeMarker : List Char → List Char
  | '(' :: '+' :: '8' :: '1' :: ')' :: rest => removeMarker rest
  | c :: rest => c :: removeMarker rest
  | [] => []

/-! ### Normalizer (`formatZip`, `formatPhone`, `calculateProduct`) -/

/-- `formatZip` (src/index.tsx lines 41-47): strip non-digits; exactly 7 digits
are formatted `DDD-DDDD`, otherwise the original string is returned. -/
def formatZip (zip : String) : String :=
  let s := zip.toList.filter Char.isDigit
  if s.length = 7 then String.mk (s.take 3) ++ "-" ++ String.mk (s.drop 3)
  else zip

/-- `formatPhone` (lines 49-51): drop `"(+81)"` markers, then strip non-digits. -/
def formatPhone (phone : String) : String :=
  String.mk ((removeMarker phone.toList).filter Char.isDigit)

/-- The regex `/^(.*)\*(\d+)$/` of `calculateProduct`: a match succeeds exactly
when the string ends with `'*'` followed by a non-empty digit run; the greedy
`(.*)` makes group 2 the maximal trailing digit run and group 1 everything
before the `'*'`. -/
def splitPack (name : String) : Option (String × Nat) :=
  match name.toList.reverse.takeWhile Char.isDigit,
        name.toList.reverse.dropWhile Char.isDigit with
  | [], _ => none
  | _ :: _, [] => none
  | d :: ds, c :: rest =>
      if c == '*' then some (String.mk rest.reverse, natOfDigits (d :: ds).reverse)
      else none

/-- `calculateProduct` (lines 53-70). -/
def calculateProduct (name : String) (quantity : Int) : String :=
  if name == "" then "Unknown*" ++ toString quantity
  else
    match splitPack name with
    | some (baseName, packSize) =>
        if quantity == 1 then name
        else baseName ++ "*" ++ toString ((packSize : Int) * quantity)
    | none => name ++ "*" ++ toString quantity

/-! ### HeaderDetector (`findHeaderRow`, lines 72-97) -/

/-- Pass-1 predicate (lines 76-81): fixed TikTok layout signature on columns
`A` and `AW`, both lower-cased before the keyword tests. -/
def isTikTokHeader (row : RawRow) : Bool :=
  let valA := strToLower (jsOrEmpty row "A")
  let valAW := strToLower (jsOrEmpty row "AW")
  (strIncludes valA "id" || strIncludes valA "注文") &&
  (strIncludes valAW "phone" || strIncludes valAW "電話")

/-- Fallback keyword set (line 87).  Note `"注文ID"` is compared against
lower-cased cell values, so its upper-case `ID` can never match. -/
def headerKeywords : List String :=
  ["電話番号", "phone", "telephone", "注文ID", "order id", "orderid"]

/-- Pass-2 predicate (lines 88-94): at least two keywords each occur in some
cell value of the row. -/
def isKeywordHeader (row : RawRow) : Bool :=
  let rowValues := row.map (fun e => strToLower e.2)
  2 ≤ headerKeywords.foldl
        (fun acc k => if rowValues.any (fun v => strIncludes v k) then acc + 1 else acc) 0

/-- `for (let i = 0; i < Math.min(rows.length, bound); i++) if (p rows[i]) return i`. -/
def scanFirst (p : RawRow → Bool) : List RawRow → Nat → Option Nat
  | _, 0 => none
  | [], _ + 1 => none
  | r :: rs, b + 1 => if p r then some 0 else (scanFirst p rs b).map (· + 1)

/-- `findHeaderRow` (lines 72-97). -/
def findHeaderRow (jsonData : List RawRow) : Int :=
  match scanFirst isTikTokHeader jsonData 20 with
  | some i => (i : Int)
  | none =>
    match scanFirst isKeywordHeader jsonData 20 with
    | some i => (i : Int)
    | none => -1

/-- First index of a row satisfying `p` (declarative form used to state C5). -/
def firstIdx (p : RawRow → Bool) : List RawRow → Option Nat
  | [] => none
  | r :: rs => if p r then some 0 else (firstIdx p rs).map (· + 1)

/-! ### ColumnMapper (lines 144-192) -/

/-- The nine semantic fields of `columnMap` / `targetHeaders`. -/
inductive Field
  | phone | zip | prefecture | city | town | addr1 | addr2 | name | orderId
deriving DecidableEq, Repr

/-- A (partial) mapping from semantic field to physical column id. -/
def ColumnMap := Field → Option String

/-- `targetHeaders` (lines 165-175). -/
def fieldKeywords : Field → List String
  | .phone => ["電話番号", "telephone", "phone"]
  | .zip => ["郵便番号", "zip", "postal"]
  | .prefecture => ["都道府県"]
  | .city => ["市区町村"]
  | .town => ["町名"]
  | .addr1 => ["詳細住所1"]
  | .addr2 => ["詳細住所2"]
  | .name => ["受取人", "name", "recipient"]
  | .orderId => ["注文ID", "order id", "orderid"]

/-- Does a header cell value match field `f`
(`keywords.some(k => valStr.includes(k))` with `valStr = String(value).trim().toLowerCase()`)? -/
def cellMatches (value : String) (f : Field) : Bool :=
  (fieldKeywords f).any (fun k => strIncludes (strToLower (strTrim value)) k)

/-- One iteration of the `Object.entries(headerRow).forEach` loop (lines 177-184):
every field whose keywords match this cell is (re)assigned to this column. -/
def applyEntry (cm : ColumnMap) (e : String × String) : ColumnMap :=
  fun f => if cellMatches e.2 f then some e.1 else cm f

/-- Generic-layout column discovery: fold the header entries in scan order. -/
def buildGenericMap (headerRow : RawRow) : ColumnMap :=
  headerRow.foldl applyEntry (fun _ => none)

/-- Fixed TikTok column assignment (lines 152-162). -/
def tiktokMap : ColumnMap := fun f =>
  some (match f with
    | .orderId => "A" | .name => "AL" | .zip => "AP" | .prefecture => "AQ"
    | .city => "AR" | .town => "AS" | .addr1 => "AT" | .addr2 => "AU" | .phone => "AW")

/-- `isTikTokFormat` (lines 148-150); note only the ASCII keywords are tested
on the lower-cased text here, matching the source exactly. -/
def isTikTokFormat (headerRow : RawRow) : Bool :=
  (strIncludes (strToLower (jsOrEmpty headerRow "A")) "id" ||
     strIncludes (jsOrEmpty headerRow "A") "注文") &&
  (strIncludes (strToLower (jsOrEmpty headerRow "AW")) "phone" ||
     strIncludes (jsOrEmpty headerRow "AW") "電話")

/-- `required = ['phone', 'zip', 'name', 'orderId']` (line 187). -/
def requiredFields : List Field := [.phone, .zip, .name, .orderId]

/-- Field names as they appear in the missing-columns error message. -/
def fieldName : Field → String
  | .phone => "phone" | .zip => "zip" | .prefecture => "prefecture"
  | .city => "city" | .town => "town" | .addr1 => "addr1"
  | .addr2 => "addr2" | .name => "name" | .orderId => "orderId"

/-! ### RowValidator and MergeEngine (lines 194-278) -/

structure Receiver where
  name : String
  phone : String
  zip : String
  address : String
deriving DecidableEq, Repr

/-- `ProcessedOrder` (lines 9-19); `orderIds` is a JS `Set`, i.e. an
insertion-ordered duplicate-free list. -/
structure Group where
  id : String
  orderIds : List String
  receiver : Receiver
  products : List String
deriving DecidableEq, Repr

/-- The mutable loop state: `orderMap` (insertion-ordered) and
`processedLinesCount`. -/
structure PState where
  map : List (String × Group)
  count : Nat
deriving DecidableEq, Repr

/-- JS `Set.prototype.add`: append if not already a member. -/
def addToSet (l : List String) (x : String) : List String :=
  if l.contains x then l else l ++ [x]

/-- `orderMap.get(k)` (by the first binding; keys are kept unique). -/
def mapFind (m : List (String × Group)) (k : String) : Option Group :=
  (m.find? (fun e => e.1 == k)).map (·.2)

/-- `orderMap.has(k)`. -/
def mapHas (m : List (String × Group)) (k : String) : Bool :=
  (m.find? (fun e => e.1 == k)).isSome

/-- In-place mutation of the group stored under key `k`. -/
def mapModify (m : List (String × Group)) (k : String) (f : Group → Group) :
    List (String × Group) :=
  m.map (fun e => if e.1 == k then (e.1, f e.2) else e)

/-- `row[columnMap.orderId]`. -/
def rawOrderIdOf (cmap : ColumnMap) (row : RawRow) : Option String :=
  getCellO row (cmap .orderId)

/-- `cleanOrderId = String(rawOrderId).trim()` (line 243). -/
def rowOid (cmap : ColumnMap) (row : RawRow) : String :=
  strTrim (jsString (rawOrderIdOf cmap row))

/-- `cleanPhone = formatPhone(row[columnMap.phone])` (lines 210-211). -/
def rowPhone (cmap : ColumnMap) (row : RawRow) : String :=
  formatPhone (jsString (getCellO row (cmap .phone)))

/-- `cleanZip = formatZip(row[columnMap.zip])` (lines 223, 241). -/
def rowZip (cmap : ColumnMap) (row : RawRow) : String :=
  formatZip (jsString (getCellO row (cmap .zip)))

/-- `cleanName = String(row[columnMap.name]).trim()` (lines 224, 242). -/
def rowName (cmap : ColumnMap) (row : RawRow) : String :=
  strTrim (jsString (getCellO row (cmap .name)))

/-- `fullAddress` assembly (lines 226-239): truthy parts of prefecture, city,
town, addr1 trimmed and concatenated; a non-blank addr2 appended in
parentheses. -/
def rowAddress (cmap : ColumnMap) (row : RawRow) : String :=
  let addrParts :=
    (([getCellO row (cmap .prefecture), getCellO row (cmap .city),
       getCellO row (cmap .town), getCellO row (cmap .addr1)].filter
        (fun v => !falsy v)).map (fun v => strTrim (jsString v)))
  let rawAddr2 := getCellO row (cmap .addr2)
  let addrParts :=
    if !falsy rawAddr2 && strTrim (jsString rawAddr2) != "" then
      addrParts ++ ["(" ++ strTrim (jsString rawAddr2) ++ ")"]
    else addrParts
  joinSep "" addrParts

/-- `mergeKey` (line 258). -/
def rowKey (cmap : ColumnMap) (row : RawRow) : String :=
  rowPhone cmap row ++ "|" ++ rowZip cmap row ++ "|" ++
    rowAddress cmap row ++ "|" ++ rowName cmap row

/-- The receiver record stored on group creation (lines 264-269). -/
def rowReceiver (cmap : ColumnMap) (row : RawRow) : Receiver :=
  ⟨rowName cmap row, rowPhone cmap row, rowZip cmap row, rowAddress cmap row⟩

/-- `headerName = String(headerRow[columnMap.orderId] || "").trim()` (line 207). -/
def headerOrderIdName (cmap : ColumnMap) (header : RawRow) : String :=
  strTrim (jsOrEmptyV (getCellO header (cmap .orderId)))

/-- `productName = String(row['G'] || "").trim()` (lines 248, 251). -/
def rowProductName (row : RawRow) : String :=
  strTrim (jsOrEmptyV (getCell row "G"))

/-- `quantity = parseInt(row['J'] || "0", 10)` (lines 249, 252);
`none` models `NaN`. -/
def rowQty (row : RawRow) : Option Int :=
  jsParseInt (let v := jsOrEmptyV (getCell row "J"); if v == "" then "0" else v)

/-- The product string a row contributes (line 255). -/
def rowProd (row : RawRow) : String :=
  calculateProduct (rowProductName row) ((rowQty row).getD 0)

/-- The four `continue`-style skip checks of lines 202-219: the row reaches
`processedLinesCount++` exactly when this is `true`. -/
def validRow14 (cmap : ColumnMap) (header row : RawRow) : Bool :=
  !falsy (rawOrderIdOf cmap row) &&
  rowOid cmap row != headerOrderIdName cmap header &&
  decide (8 ≤ (rowPhone cmap row).length) &&
  rowOid cmap row != ""

/-- The row contributes to a group: the four skip checks pass and the parsed
quantity is positive (line 254). -/
def rowValid (cmap : ColumnMap) (header row : RawRow) : Bool :=
  validRow14 cmap header row &&
  (match rowQty row with | some q => decide (0 < q) | none => false)

/-- One iteration of the data-row loop (lines 199-278). -/
def processRow (cmap : ColumnMap) (header : RawRow) (st : PState) (row : RawRow) :
    PState :=
  if validRow14 cmap header row then
    let count' := st.count + 1
    match rowQty row with
    | some q =>
        if 0 < q then
          let finalProductString := calculateProduct (rowProductName row) q
          let mergeKey := rowKey cmap row
          let cleanOrderId := rowOid cmap row
          if mapHas st.map mergeKey then
            ⟨mapModify st.map mergeKey (fun g =>
                { g with orderIds := addToSet g.orderIds cleanOrderId,
                         products := g.products ++ [finalProductString] }), count'⟩
          else
            ⟨st.map ++ [(mergeKey,
                ⟨mergeKey, [cleanOrderId], rowReceiver cmap row,
                  [finalProductString]⟩)], count'⟩
        else ⟨st.map, count'⟩
    | none => ⟨st.map, count'⟩
  else st

/-- Folding the data rows from the empty state. -/
def runRows (cmap : ColumnMap) (header : RawRow) (rows : List RawRow) : PState :=
  rows.foldl (processRow cmap header) ⟨[], 0⟩

/-! ### OutputBuilder (lines 280-362) and the full pipeline -/

inductive LogType
  | info | merge | error | warning
deriving DecidableEq, Repr

structure LogEntry where
  type : LogType
  message : String
deriving DecidableEq, Repr

/-- An output spreadsheet cell: the code writes both numbers and strings. -/
inductive OutCell
  | num (v : Int)
  | str (v : String)
deriving DecidableEq, Repr

/-- `FIXED_VALUES` (lines 28-37). -/
structure FixedValues where
  deliveryMethod : Int
  labelType : Int
  senderName : String
  senderZip : String
  senderAddress : String
  packetSize : Int
  serviceFee : Int
  packingFee : Int

def FIXED_VALUES : FixedValues :=
  ⟨9, 1800800001, "AIRUPA物流センター", "455-0065", "名古屋市港区本宮新町86", 20, 0, 0⟩

/-- `rowData` (lines 297-321): the output row as an object with cells A..V. -/
structure RowData where
  A : OutCell
  B : OutCell
  C : OutCell
  D : OutCell
  E : OutCell
  F : OutCell
  G : OutCell
  H : OutCell
  I : OutCell
  J : OutCell
  K : OutCell
  L : OutCell
  M : OutCell
  N : OutCell
  O : OutCell
  P : OutCell
  Q : OutCell
  R : OutCell
  S : OutCell
  T : OutCell
  U : OutCell
  V : OutCell
deriving DecidableEq, Repr

/-- Build `rowData` for one group (lines 297-321). -/
def makeRowData (seq : Int) (g : Group) : RowData :=
  ⟨.num seq, .num FIXED_VALUES.deliveryMethod, .num FIXED_VALUES.labelType,
   .str "", .str "",
   .str g.receiver.phone, .str g.receiver.zip, .str g.receiver.address,
   .str g.receiver.name,
   .str "", .str "", .str "", .str "",
   .str FIXED_VALUES.senderZip, .str FIXED_VALUES.senderAddress,
   .str FIXED_VALUES.senderName,
   .str (joinSep "\n" g.products), .num FIXED_VALUES.packetSize, .str "",
   .num FIXED_VALUES.serviceFee, .num FIXED_VALUES.packingFee,
   .str (joinSep "\n" g.orderIds)⟩

/-- The `[r.A, r.B, ..., r.V]` projection of line 359-361. -/
def rowToArray (r : RowData) : List OutCell :=
  [r.A, r.B, r.C, r.D, r.E, r.F, r.G, r.H, r.I, r.J, r.K,
   r.L, r.M, r.N, r.O, r.P, r.Q, r.R, r.S, r.T, r.U, r.V]

/-- `outputRows` with the `sequence++` counter (lines 283, 298, 322). -/
def buildRows : Int → List Group → List (List OutCell)
  | _, [] => []
  | seq, g :: gs => rowToArray (makeRowData seq g) :: buildRows (seq + 1) gs

/-- Per-group `merge` log entries (lines 289-295), in group order. -/
def buildGroupLogs (groups : List Group) : List LogEntry :=
  groups.filterMap (fun g =>
    if 1 < g.orderIds.length then
      some ⟨.merge, "MERGED: " ++ g.receiver.name ++ " has " ++
        toString g.orderIds.length ++ " orders combined. IDs: " ++
        joinSep ", " g.orderIds⟩
    else none)

/-- Output header labels (lines 348-352). -/
def headerRowValues : List OutCell :=
  [.str "序号", .str "配送方法", .str "送り状種類", .str "伝票番号", .str "送料",
   .str "電話番号", .str "郵便番号", .str "住所", .str "氏名",
   .str "お届け希望日", .str "時間帯指定", .str "出荷予定日",
   .str "ご依頼主電話番号", .str "ご依頼主郵便番号", .str "ご依頼主住所1",
   .str "ご依頼主名", .str "品名", .str "ゆうパケット専用サイズ欄",
   .str "注意写真", .str "代引金額", .str "梱包資材費", .str "記事"]

/-- Components of `processFile` as named stages, used by the theorems. -/
def headerIdxOf (d : List RawRow) : Int := findHeaderRow d

def headerRowOf (d : List RawRow) : RawRow := d.getD (headerIdxOf d).toNat []

def columnMapOf (d : List RawRow) : ColumnMap :=
  if isTikTokFormat (headerRowOf d) then tiktokMap else buildGenericMap (headerRowOf d)

def missingOf (d : List RawRow) : List Field :=
  requiredFields.filter (fun f => falsy (columnMapOf d f))

def dataRowsOf (d : List RawRow) : List RawRow :=
  d.drop ((headerIdxOf d).toNat + 1)

def finalStateOf (d : List RawRow) : PState :=
  runRows (columnMapOf d) (headerRowOf d) (dataRowsOf d)

def groupsOf (d : List RawRow) : List Group := (finalStateOf d).map.map (·.2)

/-- The summary log entry (lines 334-338). -/
def summaryEntry (count totalGroups : Nat) : LogEntry :=
  if totalGroups < count then
    ⟨.warning, "⚠️ ATTENTION: " ++ toString (count - totalGroups) ++
      " orders were merged into existing shipments."⟩
  else
    ⟨.info, "✅ " ++ toString count ++ " orders processed. No merges required."⟩

/-- Everything the transform produces: the log sequence and, unless the run
aborted, the output sheet contents (`wsData`, lines 354-362). -/
structure RunResult where
  logs : List LogEntry
  output : Option (List (List OutCell))
deriving DecidableEq, Repr

/-- The `logs1` list of lines 334-338: the summary entry, followed by the
per-group merge entries exactly when `processedLinesCount > totalGroups`
(the merge entries are dropped in the `else` branch). -/
def logs1Of (d : List RawRow) : List LogEntry :=
  if (buildRows 1 (groupsOf d)).length < (finalStateOf d).count then
    summaryEntry (finalStateOf d).count (buildRows 1 (groupsOf d)).length ::
      buildGroupLogs (groupsOf d)
  else
    [summaryEntry (finalStateOf d).count (buildRows 1 (groupsOf d)).length]

/-- The body of the `try` block of `processFile` (lines 132-378), with the
excluded workbook I/O stripped: fatal conditions are `throw`n. -/
def processCore (jsonData : List RawRow) : Except String RunResult :=
  if jsonData.length < 2 then
    .error "File appears to be empty or invalid format."
  else if headerIdxOf jsonData = -1 then
    .error "Could not find a valid header row (looking for Phone, Order ID)."
  else if 0 < (missingOf jsonData).length then
    .error ("Missing required columns: " ++
      joinSep ", " ((missingOf jsonData).map fieldName) ++ ". Format detected: " ++
      (if isTikTokFormat (headerRowOf jsonData) then "Standard TikTok" else "Generic"))
  else if (buildRows 1 (groupsOf jsonData)).length = 0 then
    .ok ⟨logs1Of jsonData ++
      [⟨.error, "No valid orders found to export. Please check the file format."⟩],
      none⟩
  else
    .ok ⟨logs1Of jsonData ++ [⟨.info, "Processing complete. Ready to download."⟩],
      some ([[], [], [], headerRowValues] ++ buildRows 1 (groupsOf jsonData))⟩

/-- `processFile`: the `catch` turns a thrown fatal error into the single
user-visible error log (line 382). -/
def processFile (jsonData : List RawRow) : RunResult :=
  match processCore jsonData with
  | .ok r => r
  | .error msg => ⟨[⟨.error, "Processing failed: " ++ msg⟩], none⟩

/-- Number of data rows passing all five skip conditions (the spec's notion of
a fully validated row, including `quantity > 0`), used to state C3. -/
def validatedRowCount (d : List RawRow) : Nat :=
  ((dataRowsOf d).filter (rowValid (columnMapOf d) (headerRowOf d))).length

/-! ### Concrete inputs used by witnesses and counterexamples

All use the fixed TikTok layout: header keyword `注文ID` in column A and
`電話番号` in column AW, so `findHeaderRow` returns 0 and `columnMap` is the
static TikTok table (orderId=A, name=AL, zip=AP, prefecture=AQ, phone=AW,
product=G, quantity=J). -/

def hdrT : RawRow := [("A", "注文ID"), ("AW", "電話番号")]

/-- A fully valid data row (quantity 1). -/
def rowOk : RawRow :=
  [("A", "OA"), ("AL", "N1"), ("AP", "1234567"), ("AQ", "Addr"),
   ("AW", "0312345678"), ("G", "Box"), ("J", "1")]

/-- Passes the four skip checks but has quantity `0`, so it is counted by
`processedLinesCount` yet contributes to no group. -/
def rowQty0 : RawRow :=
  [("A", "OB"), ("AL", "N2"), ("AP", "1234567"), ("AQ", "Addr2"),
   ("AW", "0312345679"), ("G", "Box"), ("J", "0")]

/-- Input with one valid row and one quantity-0 row: one group, count 2. -/
def dQty0 : List RawRow := [hdrT, rowOk, rowQty0]

/-- Two rows with identical receiver data and distinct order ids. -/
def rowM1 : RawRow :=
  [("A", "OA"), ("AL", "N"), ("AP", "1234567"), ("AQ", "Addr"),
   ("AW", "0312345678"), ("G", "Box*4"), ("J", "1")]

def rowM2 : RawRow :=
  [("A", "OB"), ("AL", "N"), ("AP", "1234567"), ("AQ", "Addr"),
   ("AW", "0312345678"), ("G", "Box*4"), ("J", "2")]

/-- Input producing a genuine merge (one group, two order ids). -/
def dMerge : List RawRow := [hdrT, rowM1, rowM2]

/-- Key-collision pair: normalized zip `"Z|A"` with address `"B"` versus
normalized zip `"Z"` with address `"A|B"` give the same joined merge key
`"...|Z|A|B|N"` although the zip (and address) fields differ. -/
def rowK1 : RawRow :=
  [("A", "O1"), ("AL", "N"), ("AP", "Z|A"), ("AQ", "B"),
   ("AW", "0312345678"), ("G", "P"), ("J", "1")]

def rowK2 : RawRow :=
  [("A", "O2"), ("AL", "N"), ("AP", "Z"), ("AQ", "A|B"),
   ("AW", "0312345678"), ("G", "P"), ("J", "1")]

/-- Two rows whose trimmed order ids coincide (`"OD"`), in one merge key. -/
def rowD1 : RawRow :=
  [("A", "OD"), ("AL", "N"), ("AP", "1234567"), ("AQ", "Addr"),
   ("AW", "0312345678"), ("G", "Box"), ("J", "1")]

def rowD2 : RawRow :=
  [("A", " OD "), ("AL", "N"), ("AP", "1234567"), ("AQ", "Addr"),
   ("AW", "0312345678"), ("G", "Pen"), ("J", "1")]

def dDup : List RawRow := [hdrT, rowD1, rowD2]

/-! ### Supporting lemmas -/

theorem scanFirst_eq (p : RawRow → Bool) :
    ∀ (l : List RawRow) (b : Nat), scanFirst p l b = firstIdx p (l.take b) := by
  intro l
  induction l with
  | nil => intro b; cases b <;> rfl
  | cons r rs ih =>
      intro b
      cases b with
      | zero => rfl
      | succ b => simp only [scanFirst, List.take_succ_cons, firstIdx, ih]

theorem applyEntry_foldl (f : Field) :
    ∀ (l : List (String × String)) (cm : ColumnMap),
      (l.foldl applyEntry cm) f =
        match l.reverse.find? (fun e => cellMatches e.2 f) with
        | some e => some e.1
        | none => cm f := by
  intro l
  induction l with
  | nil => intro cm; rfl
  | cons e l ih =>
      intro cm
      simp only [List.foldl_cons, List.reverse_cons, List.find?_append, ih]
      cases h : l.reverse.find? (fun e => cellMatches e.2 f) with
      | some e' => rfl
      | none =>
          simp only [Option.none_or]
          by_cases hc : cellMatches e.2 f
          · simp [List.find?, hc, applyEntry]
          · simp [List.find?, hc, applyEntry]

/-! Lemmas about the `/^(.*)\*(\d+)$/` match. -/

theorem takeWhile_append_of_all {p : Char → Bool} :
    ∀ (l1 : List Char) (a : Char) (l2 : List Char),
      (∀ c ∈ l1, p c = true) → p a = false →
      (l1 ++ a :: l2).takeWhile p = l1 ∧ (l1 ++ a :: l2).dropWhile p = a :: l2 := by
  intro l1
  induction l1 with
  | nil =>
      intro a l2 _ ha
      constructor <;> simp [List.takeWhile_cons, List.dropWhile_cons, ha]
  | cons c l1 ih =>
      intro a l2 h ha
      have hc : p c = true := h c (List.mem_cons_self _ _)
      have := ih a l2 (fun x hx => h x (List.mem_cons_of_mem _ hx)) ha
      constructor
      · simp [List.takeWhile_cons, hc, this.1]
      · simp [List.dropWhile_cons, hc, this.2]

theorem dropWhile_head_false {p : Char → Bool} :
    ∀ (l : List Char) (a : Char) (t : List Char), l.dropWhile p = a :: t → p a = false := by
  intro l
  induction l with
  | nil => intro a t h; simp [List.dropWhile] at h
  | cons c l ih =>
      intro a t h
      by_cases hc : p c = true
      · rw [List.dropWhile_cons_of_pos hc] at h; exact ih a t h
      · rw [List.dropWhile_cons_of_neg hc] at h
        cases h
        exact Bool.eq_false_iff.mpr hc

theorem mem_takeWhile_digit {p : Char → Bool} :
    ∀ (l : List Char), ∀ c ∈ l.takeWhile p, p c = true := by
  intro l
  induction l with
  | nil => intro c hc; simp [List.takeWhile] at hc
  | cons a l ih =>
      intro c hc
      by_cases ha : p a = true
      · rw [List.takeWhile_cons_of_pos ha] at hc
        rcases List.mem_cons.mp hc with h | h
        · subst h; exact ha
        · exact ih c h
      · rw [List.takeWhile_cons_of_neg ha] at hc
        simp at hc

theorem splitPack_eq_some {name b : String} {p : Nat}
    (h : splitPack name = some (b, p)) :
    ∃ ds : List Char, ds ≠ [] ∧ (∀ c ∈ ds, c.isDigit = true) ∧
      name.toList = b.toList ++ '*' :: ds ∧ p = natOfDigits ds := by
  unfold splitPack at h
  cases e1 : name.toList.reverse.takeWhile Char.isDigit with
  | nil => rw [e1] at h; simp at h
  | cons d ds0 =>
      cases e2 : name.toList.reverse.dropWhile Char.isDigit with
      | nil => rw [e1, e2] at h; simp at h
      | cons c rest =>
          rw [e1, e2] at h
          by_cases hc : c = '*'
          · subst hc
            simp only [beq_self_eq_true, if_true, Option.some.injEq,
              Prod.mk.injEq] at h
            obtain ⟨hb, hp⟩ := h
            refine ⟨(d :: ds0).reverse, by simp, ?_, ?_, hp.symm⟩
            · intro x hx
              exact mem_takeWhile_digit _ x (e1 ▸ List.mem_reverse.mp hx)
            · have hsplit : name.toList.reverse = (d :: ds0) ++ '*' :: rest := by
                rw [← e1, ← e2]
                exact (List.takeWhile_append_dropWhile _ _).symm
              have hname : name.toList = ((d :: ds0) ++ '*' :: rest).reverse := by
                rw [← hsplit, List.reverse_reverse]
              rw [hname, ← hb]
              simp [List.reverse_append]
          · simp [hc] at h

theorem splitPack_mk (bl ds : List Char) (hne : ds ≠ [])
    (hdig : ∀ c ∈ ds, c.isDigit = true) :
    splitPack (String.mk (bl ++ '*' :: ds)) = some (String.mk bl, natOfDigits ds) := by
  have hrev : (String.mk (bl ++ '*' :: ds)).toList.reverse = ds.reverse ++ '*' :: bl.reverse := by
    show (bl ++ '*' :: ds).reverse = ds.reverse ++ '*' :: bl.reverse
    simp [List.reverse_append]
  have hall : ∀ c ∈ ds.reverse, Char.isDigit c = true := by
    intro c hc; exact hdig c (List.mem_reverse.mp hc)
  have hstar : Char.isDigit '*' = false := by decide
  obtain ⟨ht, hd⟩ := takeWhile_append_of_all ds.reverse '*' bl.reverse hall hstar
  unfold splitPack
  rw [hrev, ht, hd]
  cases e : ds.reverse with
  | nil => exact absurd (by simpa using e) hne
  | cons d ds0 =>
      have hds : (d :: ds0).reverse = ds := by rw [← e, List.reverse_reverse]
      simp [hds]

/-! ### C5 and C6 -/

/-- C5: `findHeaderRow` scans only the first 20 rows; the fixed-layout
signature check is run to completion over them before the fallback keyword
scan starts, so any fixed-layout match wins over any (even earlier) fallback
match; within each check the first matching index wins; otherwise `-1`. -/
theorem findHeaderRow_spec (rows : List RawRow) :
    findHeaderRow rows =
      match firstIdx isTikTokHeader (rows.take 20) with
      | some i => (i : Int)
      | none =>
        match firstIdx isKeywordHeader (rows.take 20) with
        | some i => (i : Int)
        | none => -1 := by
  unfold findHeaderRow
  rw [scanFirst_eq, scanFirst_eq]

/-- C6: under generic-layout mapping every semantic field is assigned the
column of the last-scanned header cell whose trimmed lower-cased text contains
one of the field's keywords (`find?` over the reversed header); there is no
first-match lock. -/
theorem buildGenericMap_last_match (header : RawRow) (f : Field) :
    buildGenericMap header f =
      (header.reverse.find? (fun e => cellMatches e.2 f)).map (·.1) := by
  unfold buildGenericMap
  rw [applyEntry_foldl]
  cases h : header.reverse.find? (fun e => cellMatches e.2 f) <;> simp

/-! ### C7 -/

/-- C7: `calculateProduct` returns `"Unknown*<q>"` on the empty name; on a name
of the form `<base>*<digits>` it returns the name unchanged when `q = 1` and
`<base>*<packSize*q>` otherwise; on any other non-empty name it returns
`<name>*<q>`; and the four documented examples hold. -/
theorem calculateProduct_spec :
    (∀ q : Int, calculateProduct "" q = "Unknown*" ++ toString q) ∧
    (∀ (b : String) (ds : List Char) (q : Int), ds ≠ [] →
      (∀ c ∈ ds, c.isDigit = true) →
      calculateProduct (String.mk (b.toList ++ '*' :: ds)) q =
        if q = 1 then String.mk (b.toList ++ '*' :: ds)
        else b ++ "*" ++ toString ((natOfDigits ds : Int) * q)) ∧
    (∀ (name : String) (q : Int), name ≠ "" →
      (¬ ∃ (bl ds : List Char), ds ≠ [] ∧ (∀ c ∈ ds, c.isDigit = true) ∧
          name.toList = bl ++ '*' :: ds) →
      calculateProduct name q = name ++ "*" ++ toString q) ∧
    calculateProduct "Widget*6" 1 = "Widget*6" ∧
    calculateProduct "Widget*6" 2 = "Widget*12" ∧
    calculateProduct "Widget" 3 = "Widget*3" ∧
    calculateProduct "" 2 = "Unknown*2" := by
  refine ⟨fun q => rfl, ?_, ?_, by decide, by decide, by decide, by decide⟩
  · intro b ds q hne hdig
    have hmk : splitPack (String.mk (b.toList ++ '*' :: ds)) =
        some (String.mk b.toList, natOfDigits ds) := splitPack_mk _ _ hne hdig
    have hb : String.mk b.toList = b := by cases b; rfl
    rw [hb] at hmk
    have hnonempty : (String.mk (b.toList ++ '*' :: ds) == "") = false := by
      simp only [beq_eq_false_iff_ne, ne_eq]
      intro hcontra
      have : b.toList ++ '*' :: ds = ([] : List Char) := congrArg String.toList hcontra
      simp at this
    unfold calculateProduct
    rw [hnonempty, hmk]
    simp only [Bool.false_eq_true, if_false]
    by_cases hq : q = 1
    · subst hq; simp
    · have : (q == 1) = false := by simp [hq]
      rw [this]
      simp [hq]
  · intro name q hname hnodecomp
    have hsp : splitPack name = none := by
      cases hs : splitPack name with
      | none => rfl
      | some bp =>
          obtain ⟨b', p'⟩ := bp
          obtain ⟨ds, hd1, hd2, hd3, _⟩ := splitPack_eq_some hs
          exact absurd ⟨b'.toList, ds, hd1, hd2, hd3⟩ hnodecomp
    have hne : (name == "") = false := by simp [hname]
    unfold calculateProduct
    rw [hne, hsp]
    simp

/-- Witness for C7: the pack-size branch evaluated at `"Box" * "4"`, quantity 2. -/
theorem calculateProduct_spec_witness :
    calculateProduct (String.mk ("Box".toList ++ '*' :: ['4'])) 2 =
      if (2 : Int) = 1 then String.mk ("Box".toList ++ '*' :: ['4'])
      else "Box" ++ "*" ++ toString ((natOfDigits ['4'] : Int) * 2) :=
  calculateProduct_spec.2.1 "Box" ['4'] 2 (by decide) (by decide)

/-! ### Lemmas on the order map operations -/

theorem mapFind_eq_none {m : List (String × Group)} {k : String}
    (h : mapFind m k = none) : m.find? (fun e => e.1 == k) = none := by
  unfold mapFind at h
  cases hf : m.find? (fun e => e.1 == k) with
  | none => rfl
  | some e => rw [hf] at h; simp at h

theorem mapFind_append_self {m : List (String × Group)} {k : String} (g : Group)
    (h : mapFind m k = none) : mapFind (m ++ [(k, g)]) k = some g := by
  unfold mapFind
  rw [List.find?_append, mapFind_eq_none h]
  simp [List.find?]

theorem mapFind_append_ne {m : List (String × Group)} {k k' : String} (g : Group)
    (h : k' ≠ k) : mapFind (m ++ [(k, g)]) k' = mapFind m k' := by
  unfold mapFind
  rw [List.find?_append]
  have hkk : (k == k') = false := by simp [Ne.symm h]
  cases hf : m.find? (fun e => e.1 == k') with
  | none => simp [List.find?, hkk]
  | some e => simp

theorem mapFind_modify_self (m : List (String × Group)) (k : String)
    (f : Group → Group) :
    mapFind (mapModify m k f) k = (mapFind m k).map f := by
  induction m with
  | nil => rfl
  | cons e m ih =>
      simp only [mapModify, mapFind] at ih ⊢
      cases hb : (e.1 == k) with
      | true => simp [List.find?, hb]
      | false =>
          simp only [List.map_cons, hb, Bool.false_eq_true, if_false, List.find?, hb]
          exact ih

theorem mapFind_modify_ne (m : List (String × Group)) {k k' : String}
    (f : Group → Group) (h : k' ≠ k) :
    mapFind (mapModify m k f) k' = mapFind m k' := by
  induction m with
  | nil => rfl
  | cons e m ih =>
      simp only [mapModify, mapFind] at ih ⊢
      cases hb : (e.1 == k) with
      | true =>
          have he : e.1 = k := by simpa using hb
          have hb' : (e.1 == k') = false := by simp [he, Ne.symm h]
          simp only [List.map_cons, hb, if_true, List.find?, hb']
          exact ih
      | false =>
          simp only [List.map_cons, hb, Bool.false_eq_true, if_false, List.find?]
          cases hb2 : (e.1 == k') with
          | true => simp
          | false => exact ih

theorem mapHas_eq_isSome (m : List (String × Group)) (k : String) :
    mapHas m k = (mapFind m k).isSome := by
  unfold mapHas mapFind
  cases h : m.find? (fun e => e.1 == k) <;> simp

theorem mapModify_keys (m : List (String × Group)) (k : String) (f : Group → Group) :
    (mapModify m k f).map (·.1) = m.map (·.1) := by
  induction m with
  | nil => rfl
  | cons e m ih =>
      by_cases he : e.1 = k <;> simp [mapModify, he] at ih ⊢ <;> exact ih

theorem mapModify_of_absent {m : List (String × Group)} {k : String}
    (f : Group → Group) (h : ∀ e ∈ m, (e.1 == k) = false) :
    mapModify m k f = m := by
  induction m with
  | nil => rfl
  | cons e m ih =>
      have he := h e (List.mem_cons_self _ _)
      simp only [mapModify, List.map_cons, he, Bool.false_eq_true, if_false]
      rw [show m.map (fun e => if e.1 == k then (e.1, f e.2) else e) =
        mapModify m k f from rfl]
      rw [ih (fun e' he' => h e' (List.mem_cons_of_mem _ he'))]

/-! ### Lemmas on `addToSet` (JS `Set.add`) -/

theorem addToSet_of_mem {l : List String} {x : String} (h : x ∈ l) :
    addToSet l x = l := by
  simp [addToSet, h]

theorem addToSet_of_not_mem {l : List String} {x : String} (h : ¬ x ∈ l) :
    addToSet l x = l ++ [x] := by
  simp [addToSet, h]

theorem addToSet_append (l : List String) (x : String) :
    ∃ t, addToSet l x = l ++ t := by
  by_cases h : x ∈ l
  · exact ⟨[], by rw [addToSet_of_mem h]; simp⟩
  · exact ⟨[x], addToSet_of_not_mem h⟩

theorem mem_addToSet_self (l : List String) (x : String) : x ∈ addToSet l x := by
  by_cases h : x ∈ l
  · rw [addToSet_of_mem h]; exact h
  · rw [addToSet_of_not_mem h]; simp

theorem addToSet_nodup {l : List String} {x : String} (h : l.Nodup) :
    (addToSet l x).Nodup := by
  by_cases hm : x ∈ l
  · rw [addToSet_of_mem hm]; exact h
  · rw [addToSet_of_not_mem hm]
    simp [List.nodup_append, h, hm]

theorem addToSet_ne_nil (l : List String) (x : String) : addToSet l x ≠ [] := by
  by_cases hm : x ∈ l
  · rw [addToSet_of_mem hm]
    intro hc
    rw [hc] at hm
    simp at hm
  · rw [addToSet_of_not_mem hm]
    simp

theorem addToSet_length_le (l : List String) (x : String) :
    (addToSet l x).length ≤ l.length + 1 := by
  by_cases hm : x ∈ l
  · rw [addToSet_of_mem hm]; omega
  · rw [addToSet_of_not_mem hm]; simp

/-! ### Characterization of `processRow` -/

/-- The group update applied when a row merges into an existing group. -/
def groupUpdate (oid prod : String) (g : Group) : Group :=
  { g with orderIds := addToSet g.orderIds oid, products := g.products ++ [prod] }

/-- The group created for a fresh merge key. -/
def newGroup (cmap : ColumnMap) (row : RawRow) : Group :=
  ⟨rowKey cmap row, [rowOid cmap row], rowReceiver cmap row, [rowProd row]⟩

theorem rowProd_eq {row : RawRow} {q : Int} (hq : rowQty row = some q) :
    rowProd row = calculateProduct (rowProductName row) q := by
  simp [rowProd, hq]

theorem processRow_not14 {cmap : ColumnMap} {header row : RawRow}
    (h : validRow14 cmap header row = false) (st : PState) :
    processRow cmap header st row = st := by
  simp [processRow, h]

theorem processRow_qty_none {cmap : ColumnMap} {header row : RawRow}
    (h14 : validRow14 cmap header row = true) (hq : rowQty row = none) (st : PState) :
    processRow cmap header st row = ⟨st.map, st.count + 1⟩ := by
  simp [processRow, h14, hq]

theorem processRow_qty_nonpos {cmap : ColumnMap} {header row : RawRow} {q : Int}
    (h14 : validRow14 cmap header row = true) (hq : rowQty row = some q)
    (h0 : ¬ 0 < q) (st : PState) :
    processRow cmap header st row = ⟨st.map, st.count + 1⟩ := by
  simp [processRow, h14, hq, h0]

theorem processRow_valid_has {cmap : ColumnMap} {header row : RawRow} {q : Int}
    (h14 : validRow14 cmap header row = true) (hq : rowQty row = some q)
    (h0 : 0 < q) {st : PState} (hhas : mapHas st.map (rowKey cmap row) = true) :
    processRow cmap header st row =
      ⟨mapModify st.map (rowKey cmap row)
          (groupUpdate (rowOid cmap row) (rowProd row)), st.count + 1⟩ := by
  rw [rowProd_eq hq]
  simp only [processRow, h14, hq, h0, hhas, if_true]
  rfl

theorem processRow_valid_new {cmap : ColumnMap} {header row : RawRow} {q : Int}
    (h14 : validRow14 cmap header row = true) (hq : rowQty row = some q)
    (h0 : 0 < q) {st : PState} (hhas : mapHas st.map (rowKey cmap row) = false) :
    processRow cmap header st row =
      ⟨st.map ++ [(rowKey cmap row, newGroup cmap row)], st.count + 1⟩ := by
  have hp : rowProd row = calculateProduct (rowProductName row) q := rowProd_eq hq
  simp [processRow, h14, hq, h0, hhas, newGroup, ← hp]

/-- Exhaustive shape analysis of one step, as a disjunction. -/
theorem processRow_cases (cmap : ColumnMap) (header : RawRow) (st : PState)
    (row : RawRow) :
    (rowValid cmap header row = false ∧
      ((processRow cmap header st row).map = st.map)) ∨
    (rowValid cmap header row = true ∧
      mapHas st.map (rowKey cmap row) = true ∧
      processRow cmap header st row =
        ⟨mapModify st.map (rowKey cmap row)
          (groupUpdate (rowOid cmap row) (rowProd row)), st.count + 1⟩) ∨
    (rowValid cmap header row = true ∧
      mapHas st.map (rowKey cmap row) = false ∧
      processRow cmap header st row =
        ⟨st.map ++ [(rowKey cmap row, newGroup cmap row)], st.count + 1⟩) := by
  cases h14 : validRow14 cmap header row with
  | false =>
      left
      refine ⟨by simp [rowValid, h14], ?_⟩
      rw [processRow_not14 h14]
  | true =>
      cases hq : rowQty row with
      | none =>
          left
          refine ⟨by simp [rowValid, h14, hq], ?_⟩
          rw [processRow_qty_none h14 hq]
      | some q =>
          by_cases h0 : 0 < q
          · have hv : rowValid cmap header row = true := by
              simp [rowValid, h14, hq, h0]
            cases hhas : mapHas st.map (rowKey cmap row) with
            | true =>
                right; left
                exact ⟨hv, rfl, processRow_valid_has h14 hq h0 hhas⟩
            | false =>
                right; right
                exact ⟨hv, rfl, processRow_valid_new h14 hq h0 hhas⟩
          · left
            refine ⟨by simp [rowValid, h14, hq, h0], ?_⟩
            rw [processRow_qty_nonpos h14 hq h0]

theorem processRow_map_of_invalid {cmap : ColumnMap} {header row : RawRow}
    (h : rowValid cmap header row = false) (st : PState) :
    (processRow cmap header st row).map = st.map := by
  rcases processRow_cases cmap header st row with ⟨_, hm⟩ | ⟨hv, _⟩ | ⟨hv, _⟩
  · exact hm
  · rw [h] at hv; cases hv
  · rw [h] at hv; cases hv

/-- A step never touches groups stored under other keys. -/
theorem processRow_frame {cmap : ColumnMap} {header row : RawRow} (st : PState)
    {k : String} (hk : k ≠ rowKey cmap row) :
    mapFind (processRow cmap header st row).map k = mapFind st.map k := by
  rcases processRow_cases cmap header st row with ⟨_, hm⟩ | ⟨_, _, hst⟩ | ⟨_, _, hst⟩
  · rw [hm]
  · rw [hst]; exact mapFind_modify_ne _ _ hk
  · rw [hst]; exact mapFind_append_ne _ hk

/-- The map component of a step does not depend on the count component. -/
theorem processRow_map_congr {cmap : ColumnMap} {header row : RawRow}
    {st st' : PState} (h : st.map = st'.map) :
    (processRow cmap header st row).map = (processRow cmap header st' row).map := by
  cases h14 : validRow14 cmap header row with
  | false => rw [processRow_not14 h14, processRow_not14 h14, h]
  | true =>
      cases hq : rowQty row with
      | none => rw [processRow_qty_none h14 hq, processRow_qty_none h14 hq, h]
      | some q =>
          by_cases h0 : 0 < q
          · cases hhas : mapHas st.map (rowKey cmap row) with
            | true =>
                rw [processRow_valid_has h14 hq h0 hhas,
                  processRow_valid_has h14 hq h0 (h ▸ hhas), h]
            | false =>
                rw [processRow_valid_new h14 hq h0 hhas,
                  processRow_valid_new h14 hq h0 (h ▸ hhas), h]
          · rw [processRow_qty_nonpos h14 hq h0, processRow_qty_nonpos h14 hq h0, h]

theorem foldl_map_congr (cmap : ColumnMap) (header : RawRow) :
    ∀ (rows : List RawRow) {st st' : PState}, st.map = st'.map →
      (rows.foldl (processRow cmap header) st).map =
        (rows.foldl (processRow cmap header) st').map := by
  intro rows
  induction rows with
  | nil => intro st st' h; exact h
  | cons r rows ih =>
      intro st st' h
      exact ih (processRow_map_congr h)

/-- A step can only extend an existing group in place: same id and receiver,
order ids and products extended on the right. -/
theorem processRow_grows {cmap : ColumnMap} {header row : RawRow} (st : PState)
    {k : String} {g : Group} (hg : mapFind st.map k = some g) :
    ∃ g', mapFind (processRow cmap header st row).map k = some g' ∧
      g'.id = g.id ∧ g'.receiver = g.receiver ∧
      (∃ t, g'.orderIds = g.orderIds ++ t) ∧ (∃ u, g'.products = g.products ++ u) := by
  by_cases hk : k = rowKey cmap row
  · rcases processRow_cases cmap header st row with ⟨_, hm⟩ | ⟨_, _, hst⟩ | ⟨_, hhas, hst⟩
    · exact ⟨g, by rw [hm, hg], rfl, rfl, ⟨[], by simp⟩, ⟨[], by simp⟩⟩
    · refine ⟨groupUpdate (rowOid cmap row) (rowProd row) g, ?_, rfl, rfl, ?_, ?_⟩
      · rw [hst]
        dsimp only
        rw [hk] at hg ⊢
        rw [mapFind_modify_self, hg]
        rfl
      · exact addToSet_append _ _
      · exact ⟨[rowProd row], rfl⟩
    · rw [hk] at hg
      rw [mapHas_eq_isSome, hg] at hhas
      cases hhas
  · exact ⟨g, by rw [processRow_frame st hk, hg], rfl, rfl, ⟨[], by simp⟩, ⟨[], by simp⟩⟩

theorem foldl_grows (cmap : ColumnMap) (header : RawRow) :
    ∀ (rows : List RawRow) (st : PState) {k : String} {g : Group},
      mapFind st.map k = some g →
      ∃ g', mapFind ((rows.foldl (processRow cmap header) st)).map k = some g' ∧
        g'.id = g.id ∧ g'.receiver = g.receiver ∧
        (∃ t, g'.orderIds = g.orderIds ++ t) ∧
        (∃ u, g'.products = g.products ++ u) := by
  intro rows
  induction rows with
  | nil => intro st k g hg; exact ⟨g, hg, rfl, rfl, ⟨[], by simp⟩, ⟨[], by simp⟩⟩
  | cons r rows ih =>
      intro st k g hg
      obtain ⟨g1, hf1, hid1, hrecv1, ⟨t1, ht1⟩, ⟨u1, hu1⟩⟩ := processRow_grows st hg
      obtain ⟨g2, hf2, hid2, hrecv2, ⟨t2, ht2⟩, ⟨u2, hu2⟩⟩ := ih _ hf1
      refine ⟨g2, hf2, hid2.trans hid1, hrecv2.trans hrecv1, ?_, ?_⟩
      · exact ⟨t1 ++ t2, by rw [ht2, ht1, List.append_assoc]⟩
      · exact ⟨u1 ++ u2, by rw [hu2, hu1, List.append_assoc]⟩

/-- A valid row always lands in the group keyed by its own merge key, adding
its order id and appending its product string at the end. -/
theorem processRow_contrib {cmap : ColumnMap} {header row : RawRow} (st : PState)
    (hv : rowValid cmap header row = true) :
    ∃ g ps, mapFind (processRow cmap header st row).map (rowKey cmap row) = some g ∧
      g.products = ps ++ [rowProd row] ∧ rowOid cmap row ∈ g.orderIds := by
  rcases processRow_cases cmap header st row with ⟨hv', _⟩ | ⟨_, hhas, hst⟩ | ⟨_, hhas, hst⟩
  · rw [hv] at hv'; cases hv'
  · rw [mapHas_eq_isSome] at hhas
    obtain ⟨g0, hg0⟩ := Option.isSome_iff_exists.mp hhas
    refine ⟨groupUpdate (rowOid cmap row) (rowProd row) g0, g0.products, ?_, rfl, ?_⟩
    · rw [hst]
      show mapFind (mapModify st.map _ _) _ = _
      rw [mapFind_modify_self, hg0]
      rfl
    · exact mem_addToSet_self _ _
  · refine ⟨newGroup cmap row, [], ?_, rfl, ?_⟩
    · rw [hst]
      show mapFind (st.map ++ [(rowKey cmap row, newGroup cmap row)]) _ = _
      rw [mapHas_eq_isSome] at hhas
      exact mapFind_append_self _ (Option.not_isSome_iff_eq_none.mp (by simp [hhas]))
    · show rowOid cmap row ∈ [rowOid cmap row]
      simp

theorem mem_addToSet_of_mem {l : List String} {x y : String} (h : y ∈ l) :
    y ∈ addToSet l x := by
  by_cases hm : x ∈ l
  · rw [addToSet_of_mem hm]; exact h
  · rw [addToSet_of_not_mem hm]; exact List.mem_append_left _ h

/-- Every stored group's `id` field is its own key (invariant of the order map). -/
def WfMap (m : List (String × Group)) : Prop := ∀ e ∈ m, e.2.id = e.1

theorem wfMap_step {cmap : ColumnMap} {header : RawRow} {st : PState}
    (h : WfMap st.map) (row : RawRow) :
    WfMap (processRow cmap header st row).map := by
  rcases processRow_cases cmap header st row with ⟨_, hm⟩ | ⟨_, _, hst⟩ | ⟨_, _, hst⟩
  · rw [hm]; exact h
  · rw [hst]
    intro e' he'
    obtain ⟨e, he, hee⟩ := List.mem_map.mp he'
    by_cases hk : (e.1 == rowKey cmap row) = true
    · rw [hk] at hee
      simp only [if_true] at hee
      subst hee
      exact h e he
    · rw [eq_false_of_ne_true hk] at hee
      simp only [Bool.false_eq_true, if_false] at hee
      subst hee
      exact h e he
  · rw [hst]
    intro e' he'
    rcases List.mem_append.mp he' with hm | hm
    · exact h e' hm
    · rcases List.mem_singleton.mp hm with rfl
      rfl

theorem wfMap_fold {cmap : ColumnMap} {header : RawRow} :
    ∀ (rows : List RawRow) (st : PState), WfMap st.map →
      WfMap ((rows.foldl (processRow cmap header) st)).map := by
  intro rows
  induction rows with
  | nil => intro st h; exact h
  | cons r rows ih => intro st h; exact ih _ (wfMap_step h r)

theorem mapFind_mem {m : List (String × Group)} {k : String} {g : Group}
    (h : mapFind m k = some g) : (k, g) ∈ m := by
  induction m with
  | nil => simp [mapFind, List.find?] at h
  | cons e m ih =>
      unfold mapFind at h ih
      cases hb : (e.1 == k) with
      | true =>
          simp only [List.find?, hb, Option.map_some] at h
          have he1 : e.1 = k := by simpa using hb
          have he2 : e.2 = g := by simpa using h
          rw [← he1, ← he2]
          exact List.mem_cons_self _ _
      | false =>
          simp only [List.find?, hb] at h
          exact List.mem_cons_of_mem _ (ih h)

theorem wfMap_find {m : List (String × Group)} {k : String} {g : Group}
    (hw : WfMap m) (h : mapFind m k = some g) : g.id = k := by
  have := hw (k, g) (mapFind_mem h)
  simpa using this

theorem rowValid_elim {cmap : ColumnMap} {header row : RawRow}
    (h : rowValid cmap header row = true) :
    validRow14 cmap header row = true ∧ ∃ q, rowQty row = some q ∧ 0 < q := by
  unfold rowValid at h
  cases h14 : validRow14 cmap header row with
  | false => rw [h14] at h; simp at h
  | true =>
      refine ⟨rfl, ?_⟩
      rw [h14, Bool.true_and] at h
      cases hq : rowQty row with
      | none => rw [hq] at h; simp at h
      | some q =>
          rw [hq] at h
          exact ⟨q, rfl, by simpa using h⟩

/-- C1 (amended): two validated rows land in the same shipment group exactly
when their joined merge keys `phone|zip|fullAddress|name` are equal.  When they
are, the group holds both trimmed order ids and has their product strings at
positions respecting the rows' relative order; when they are not, the rows
land in two distinct groups. -/
theorem mergeEngine_pair_spec (cmap : ColumnMap) (header : RawRow)
    (A B C : List RawRow) (r1 r2 : RawRow)
    (h1 : rowValid cmap header r1 = true) (h2 : rowValid cmap header r2 = true) :
    (rowKey cmap r1 = rowKey cmap r2 →
      ∃ (g : Group) (a b : Nat),
        mapFind (runRows cmap header (A ++ r1 :: B ++ r2 :: C)).map
          (rowKey cmap r1) = some g ∧
        rowOid cmap r1 ∈ g.orderIds ∧ rowOid cmap r2 ∈ g.orderIds ∧
        a < b ∧ g.products[a]? = some (rowProd r1) ∧
        g.products[b]? = some (rowProd r2)) ∧
    (rowKey cmap r1 ≠ rowKey cmap r2 →
      ∃ g1 g2, mapFind (runRows cmap header (A ++ r1 :: B ++ r2 :: C)).map
          (rowKey cmap r1) = some g1 ∧
        mapFind (runRows cmap header (A ++ r1 :: B ++ r2 :: C)).map
          (rowKey cmap r2) = some g2 ∧
        g1 ≠ g2 ∧ rowOid cmap r1 ∈ g1.orderIds ∧ rowOid cmap r2 ∈ g2.orderIds) := by
  have hfold : runRows cmap header (A ++ r1 :: B ++ r2 :: C) =
      C.foldl (processRow cmap header)
        (processRow cmap header
          (B.foldl (processRow cmap header)
            (processRow cmap header
              (A.foldl (processRow cmap header) ⟨[], 0⟩) r1)) r2) := by
    unfold runRows
    rw [List.foldl_append, List.foldl_cons, List.foldl_append, List.foldl_cons]
  have hwfFinal : WfMap (runRows cmap header (A ++ r1 :: B ++ r2 :: C)).map := by
    unfold runRows
    apply wfMap_fold
    intro e he
    exact absurd he (List.not_mem_nil e)
  obtain ⟨h14, q2, hq2, h02⟩ := rowValid_elim h2
  set st0 := A.foldl (processRow cmap header) (⟨[], 0⟩ : PState) with hst0
  obtain ⟨g1, ps1, hf1, hprod1, hmem1⟩ := processRow_contrib st0 h1
  set st1 := processRow cmap header st0 r1 with hst1
  obtain ⟨g2, hf2, hid2, _, ⟨t, ht⟩, ⟨u, hu⟩⟩ := foldl_grows cmap header B st1 hf1
  set st2 := B.foldl (processRow cmap header) st1 with hst2
  have hmem1' : rowOid cmap r1 ∈ g2.orderIds := by
    rw [ht]
    exact List.mem_append_left _ hmem1
  constructor
  · intro hk
    have hhas : mapHas st2.map (rowKey cmap r2) = true := by
      rw [mapHas_eq_isSome, ← hk, hf2]
      rfl
    have hst3 := processRow_valid_has h14 hq2 h02 hhas
    have hf3 : mapFind (processRow cmap header st2 r2).map (rowKey cmap r1) =
        some (groupUpdate (rowOid cmap r2) (rowProd r2) g2) := by
      rw [hst3]
      dsimp only
      rw [hk, mapFind_modify_self, ← hk, hf2]
      rfl
    obtain ⟨g4, hf4, _, _, ⟨t', ht'⟩, ⟨u', hu'⟩⟩ :=
      foldl_grows cmap header C (processRow cmap header st2 r2) hf3
    have hlen1 : ps1.length < g2.products.length := by
      rw [hu, hprod1]
      simp only [List.length_append, List.length_cons, List.length_nil]
      omega
    refine ⟨g4, ps1.length, g2.products.length, ?_, ?_, ?_, hlen1, ?_, ?_⟩
    · rw [← hfold] at hf4; exact hf4
    · rw [ht']
      exact List.mem_append_left _ (mem_addToSet_of_mem hmem1')
    · rw [ht']
      exact List.mem_append_left _ (mem_addToSet_self _ _)
    · rw [hu']
      show ((g2.products ++ [rowProd r2]) ++ u')[ps1.length]? = _
      rw [List.getElem?_append_left (show ps1.length < (g2.products ++ [rowProd r2]).length by
            simp only [List.length_append, List.length_cons, List.length_nil]; omega),
        List.getElem?_append_left hlen1, hu, hprod1,
        List.getElem?_append_left (show ps1.length < (ps1 ++ [rowProd r1]).length by
            simp only [List.length_append, List.length_cons, List.length_nil]; omega),
        List.getElem?_append_right (Nat.le_refl _)]
      simp
    · rw [hu']
      show ((g2.products ++ [rowProd r2]) ++ u')[g2.products.length]? = _
      rw [List.getElem?_append_left
            (show g2.products.length < (g2.products ++ [rowProd r2]).length by
              simp only [List.length_append, List.length_cons, List.length_nil]; omega),
        List.getElem?_append_right (Nat.le_refl _)]
      simp
  · intro hk
    have hf2' : mapFind (processRow cmap header st2 r2).map (rowKey cmap r1) =
        some g2 := by
      rw [processRow_frame st2 hk]
      exact hf2
    obtain ⟨gf1, hgf1, _, _, ⟨t1, ht1⟩, _⟩ :=
      foldl_grows cmap header C (processRow cmap header st2 r2) hf2'
    obtain ⟨g2', ps2, hg2', hprod2, hmem2⟩ := processRow_contrib st2 h2
    obtain ⟨gf2, hgf2, _, _, ⟨t2, ht2⟩, _⟩ :=
      foldl_grows cmap header C (processRow cmap header st2 r2) hg2'
    have hgf1' : mapFind (runRows cmap header (A ++ r1 :: B ++ r2 :: C)).map
        (rowKey cmap r1) = some gf1 := by
      rw [hfold]
      exact hgf1
    have hgf2' : mapFind (runRows cmap header (A ++ r1 :: B ++ r2 :: C)).map
        (rowKey cmap r2) = some gf2 := by
      rw [hfold]
      exact hgf2
    refine ⟨gf1, gf2, hgf1', hgf2', ?_, ?_, ?_⟩
    · intro hc
      apply hk
      rw [← wfMap_find hwfFinal hgf1', ← wfMap_find hwfFinal hgf2', hc]
    · rw [ht1]
      exact List.mem_append_left _ hmem1'
    · rw [ht2]
      exact List.mem_append_left _ hmem2

/-- C1 counterexample: `rowK1` and `rowK2` are both validated, their
normalized zip and assembled address fields differ, yet — because the zip of
`rowK1` contains the literal `"|"` separator — their joined merge keys
coincide and the two rows are merged into one group holding both order ids.
This refutes the claimed "if and only if all four normalized fields are
exactly equal". -/
theorem mergeKey_collision_cx :
    rowValid tiktokMap hdrT rowK1 = true ∧
    rowValid tiktokMap hdrT rowK2 = true ∧
    rowZip tiktokMap rowK1 ≠ rowZip tiktokMap rowK2 ∧
    rowAddress tiktokMap rowK1 ≠ rowAddress tiktokMap rowK2 ∧
    rowKey tiktokMap rowK1 = rowKey tiktokMap rowK2 ∧
    (runRows tiktokMap hdrT [rowK1, rowK2]).map =
      [("0312345678|Z|A|B|N",
        ⟨"0312345678|Z|A|B|N", ["O1", "O2"],
          ⟨"N", "0312345678", "Z|A", "B"⟩, ["P*1", "P*1"]⟩)] := by decide

/-- Witness for C1: the equal-key direction at two concretely merging rows. -/
theorem mergeEngine_pair_spec_witness :
    ∃ (g : Group) (a b : Nat),
      mapFind (runRows tiktokMap hdrT ([] ++ rowM1 :: [] ++ rowM2 :: [])).map
        (rowKey tiktokMap rowM1) = some g ∧
      rowOid tiktokMap rowM1 ∈ g.orderIds ∧ rowOid tiktokMap rowM2 ∈ g.orderIds ∧
      a < b ∧ g.products[a]? = some (rowProd rowM1) ∧
      g.products[b]? = some (rowProd rowM2) :=
  (mergeEngine_pair_spec tiktokMap hdrT [] [] [] rowM1 rowM2
    (by decide) (by decide)).1 (by decide)

/-! ### C8 -/

/-- C8: a data row whose parsed quantity is not positive, or whose normalized
phone has fewer than 8 digits, or whose order-id cell is empty or
whitespace-only, never contributes to any shipment group: the final order map
is the one obtained with the row removed from the input. -/
theorem skipped_rows_never_contribute (cmap : ColumnMap) (header : RawRow)
    (A B : List RawRow) (r : RawRow)
    (h : (∃ q, rowQty r = some q ∧ q ≤ 0) ∨
         (rowPhone cmap r).length < 8 ∨
         strTrim (jsOrEmptyV (rawOrderIdOf cmap r)) = "") :
    (runRows cmap header (A ++ r :: B)).map = (runRows cmap header (A ++ B)).map := by
  have hstep : ∀ st : PState, (processRow cmap header st r).map = st.map := by
    intro st
    rcases h with ⟨q, hq, hq0⟩ | hph | hoid
    · cases h14 : validRow14 cmap header r with
      | false => rw [processRow_not14 h14]
      | true => rw [processRow_qty_nonpos h14 hq (by omega)]
    · have h14 : validRow14 cmap header r = false := by
        unfold validRow14
        have hd : decide (8 ≤ (rowPhone cmap r).length) = false :=
          decide_eq_false (by omega)
        simp [hd]
      rw [processRow_not14 h14]
    · have h14 : validRow14 cmap header r = false := by
        cases hro : rawOrderIdOf cmap r with
        | none => unfold validRow14; rw [hro]; simp [falsy]
        | some s =>
            by_cases hs : s = ""
            · unfold validRow14; rw [hro, hs]; simp [falsy]
            · have hrowOid : rowOid cmap r = "" := by
                unfold rowOid
                rw [hro]
                rw [hro] at hoid
                exact hoid
              unfold validRow14
              rw [hrowOid]
              simp
      rw [processRow_not14 h14]
  unfold runRows
  rw [List.foldl_append, List.foldl_cons, List.foldl_append]
  exact foldl_map_congr cmap header B (hstep _)

/-- Witness for C8: removing a quantity-0 row leaves the order map unchanged. -/
theorem skipped_rows_never_contribute_witness :
    (runRows tiktokMap hdrT ([rowOk] ++ rowQty0 :: [])).map =
      (runRows tiktokMap hdrT ([rowOk] ++ [])).map :=
  skipped_rows_never_contribute tiktokMap hdrT [rowOk] [] rowQty0
    (Or.inl ⟨0, by decide, by decide⟩)

/-! ### C10 -/

theorem nodupIds_step {cmap : ColumnMap} {header : RawRow} {st : PState}
    (h : ∀ e ∈ st.map, e.2.orderIds.Nodup) (row : RawRow) :
    ∀ e ∈ (processRow cmap header st row).map, e.2.orderIds.Nodup := by
  rcases processRow_cases cmap header st row with ⟨_, hm⟩ | ⟨_, _, hst⟩ | ⟨_, _, hst⟩
  · rw [hm]; exact h
  · rw [hst]
    intro e' he'
    obtain ⟨e, he, hee⟩ := List.mem_map.mp he'
    by_cases hk : (e.1 == rowKey cmap row) = true
    · rw [hk] at hee
      simp only [if_true] at hee
      subst hee
      exact addToSet_nodup (h e he)
    · rw [eq_false_of_ne_true hk] at hee
      simp only [Bool.false_eq_true, if_false] at hee
      subst hee
      exact h e he
  · rw [hst]
    intro e' he'
    rcases List.mem_append.mp he' with hm | hm
    · exact h e' hm
    · rcases List.mem_singleton.mp hm with rfl
      exact List.nodup_singleton _

theorem nodupIds_fold {cmap : ColumnMap} {header : RawRow} :
    ∀ (rows : List RawRow) (st : PState), (∀ e ∈ st.map, e.2.orderIds.Nodup) →
      ∀ e ∈ ((rows.foldl (processRow cmap header) st)).map, e.2.orderIds.Nodup := by
  intro rows
  induction rows with
  | nil => intro st h; exact h
  | cons r rows ih => intro st h; exact ih _ (nodupIds_step h r)

/-- C10: every group's order-id set is duplicate-free; a validated row whose
trimmed order id is already in its group leaves the id set unchanged while
still appending one product string; concretely, on `dDup` two validated rows
produce a single group with one order id but two products and no `merge` log
entry. -/
theorem orderIds_set_semantics :
    (∀ (cmap : ColumnMap) (header : RawRow) (rows : List RawRow),
      ∀ e ∈ (runRows cmap header rows).map, e.2.orderIds.Nodup) ∧
    (∀ (cmap : ColumnMap) (header : RawRow) (st : PState) (row : RawRow) (g : Group),
      rowValid cmap header row = true →
      mapFind st.map (rowKey cmap row) = some g →
      rowOid cmap row ∈ g.orderIds →
      mapFind (processRow cmap header st row).map (rowKey cmap row) =
        some ⟨g.id, g.orderIds, g.receiver, g.products ++ [rowProd row]⟩) ∧
    ((groupsOf dDup).map (fun g => (g.orderIds, g.products)) =
        [(["OD"], ["Box*1", "Pen*1"])] ∧
      buildGroupLogs (groupsOf dDup) = [] ∧
      validatedRowCount dDup = 2) := by
  refine ⟨?_, ?_, by decide⟩
  · intro cmap header rows
    apply nodupIds_fold
    intro e he
    exact absurd he (List.not_mem_nil e)
  · intro cmap header st row g hv hg hmem
    obtain ⟨h14, q, hq, h0⟩ := rowValid_elim hv
    have hhas : mapHas st.map (rowKey cmap row) = true := by
      rw [mapHas_eq_isSome, hg]
      rfl
    rw [processRow_valid_has h14 hq h0 hhas]
    dsimp only
    rw [mapFind_modify_self, hg]
    show some (groupUpdate _ _ g) = _
    unfold groupUpdate
    rw [addToSet_of_mem hmem]

/-- Witness for C10: merging a duplicate order id appends the product but not
the id. -/
theorem orderIds_set_semantics_witness :
    mapFind (processRow tiktokMap hdrT (runRows tiktokMap hdrT [rowD1]) rowD2).map
        (rowKey tiktokMap rowD2) =
      some ⟨"0312345678|123-4567|Addr|N", ["OD"],
        ⟨"N", "0312345678", "123-4567", "Addr"⟩, ["Box*1", "Pen*1"]⟩ :=
  orderIds_set_semantics.2.1 tiktokMap hdrT (runRows tiktokMap hdrT [rowD1]) rowD2
    ⟨"0312345678|123-4567|Addr|N", ["OD"],
      ⟨"N", "0312345678", "123-4567", "Addr"⟩, ["Box*1"]⟩
    (by decide) (by decide) (by decide)

/-! ### Counting invariant: the processed-lines count dominates the total
number of stored order ids, so merge log entries force the warning summary. -/

def sumOrderIds (m : List (String × Group)) : Nat :=
  (m.map (fun e => e.2.orderIds.length)).sum

def keysNodup (m : List (String × Group)) : Prop := (m.map (·.1)).Nodup

/-- Bundled loop invariant for the C3 counting argument. -/
def CountInv (st : PState) : Prop :=
  keysNodup st.map ∧ sumOrderIds st.map ≤ st.count ∧
    ∀ e ∈ st.map, e.2.orderIds ≠ []

theorem mapHas_false_keys {m : List (String × Group)} {k : String}
    (h : mapHas m k = false) : ∀ e ∈ m, (e.1 == k) = false := by
  intro e he
  unfold mapHas at h
  cases hf : m.find? (fun e => e.1 == k) with
  | some e' => rw [hf] at h; simp at h
  | none => exact eq_false_of_ne_true (List.find?_eq_none.mp hf e he)

theorem sumOrderIds_cons (x : String × Group) (l : List (String × Group)) :
    sumOrderIds (x :: l) = x.2.orderIds.length + sumOrderIds l := by
  simp [sumOrderIds]

theorem sumOrderIds_modify_le {m : List (String × Group)} (k : String)
    {f : Group → Group} (hnd : keysNodup m)
    (hf : ∀ g, (f g).orderIds.length ≤ g.orderIds.length + 1) :
    sumOrderIds (mapModify m k f) ≤ sumOrderIds m + 1 := by
  induction m with
  | nil => simp [mapModify, sumOrderIds]
  | cons e m ih =>
      have hnd' : (e.1 :: m.map (·.1)).Nodup := by simpa [keysNodup] using hnd
      have hnd0 := List.nodup_cons.mp hnd'
      have hcons : mapModify (e :: m) k f =
          (if e.1 == k then (e.1, f e.2) else e) :: mapModify m k f := rfl
      cases hb : (e.1 == k) with
      | true =>
          have he : e.1 = k := by simpa using hb
          have hnot : ∀ e' ∈ m, (e'.1 == k) = false := by
            intro e' he'
            cases hb2 : (e'.1 == k) with
            | false => rfl
            | true =>
                exfalso
                have h1 : e'.1 = k := by simpa using hb2
                apply hnd0.1
                rw [he, ← h1]
                exact List.mem_map_of_mem (·.1) he'
          rw [hcons, if_pos hb, mapModify_of_absent f hnot,
            sumOrderIds_cons, sumOrderIds_cons]
          have hproj : ((e.1, f e.2) : String × Group).2 = f e.2 := rfl
          rw [hproj]
          have := hf e.2
          omega
      | false =>
          rw [hcons, if_neg (by simp [hb]), sumOrderIds_cons, sumOrderIds_cons]
          have := ih (by simpa [keysNodup] using hnd0.2)
          omega

theorem countInv_step {cmap : ColumnMap} {header : RawRow} {st : PState}
    (h : CountInv st) (row : RawRow) : CountInv (processRow cmap header st row) := by
  obtain ⟨hnd, hsum, hne⟩ := h
  have hcount : st.count ≤ (processRow cmap header st row).count := by
    cases h14 : validRow14 cmap header row with
    | false => rw [processRow_not14 h14]
    | true =>
        cases hq : rowQty row with
        | none => rw [processRow_qty_none h14 hq]; exact Nat.le_succ _
        | some q =>
            by_cases h0 : 0 < q
            · cases hhas : mapHas st.map (rowKey cmap row) with
              | true =>
                  rw [processRow_valid_has h14 hq h0 hhas]; exact Nat.le_succ _
              | false =>
                  rw [processRow_valid_new h14 hq h0 hhas]; exact Nat.le_succ _
            · rw [processRow_qty_nonpos h14 hq h0]; exact Nat.le_succ _
  rcases processRow_cases cmap header st row with ⟨_, hm⟩ | ⟨_, hhas, hst⟩ | ⟨_, hhas, hst⟩
  · refine ⟨?_, ?_, ?_⟩
    · rw [hm]; exact hnd
    · rw [hm]; omega
    · rw [hm]; exact hne
  · rw [hst]
    refine ⟨?_, ?_, ?_⟩
    · show keysNodup (mapModify _ _ _)
      unfold keysNodup
      rw [mapModify_keys]
      exact hnd
    · show sumOrderIds (mapModify _ _ _) ≤ st.count + 1
      calc sumOrderIds (mapModify st.map (rowKey cmap row)
            (groupUpdate (rowOid cmap row) (rowProd row))) ≤
          sumOrderIds st.map + 1 :=
            sumOrderIds_modify_le _ hnd (fun g => addToSet_length_le _ _)
        _ ≤ st.count + 1 := by omega
    · intro e' he'
      obtain ⟨e, he, hee⟩ := List.mem_map.mp he'
      by_cases hk : (e.1 == rowKey cmap row) = true
      · rw [hk] at hee
        simp only [if_true] at hee
        subst hee
        exact addToSet_ne_nil _ _
      · rw [eq_false_of_ne_true hk] at hee
        simp only [Bool.false_eq_true, if_false] at hee
        subst hee
        exact hne e he
  · rw [hst]
    refine ⟨?_, ?_, ?_⟩
    · unfold keysNodup
      rw [List.map_append]
      simp only [List.map_cons, List.map_nil]
      rw [List.nodup_append]
      refine ⟨hnd, List.nodup_singleton _, ?_⟩
      intro a ha hb
      rcases List.mem_singleton.mp hb with rfl
      obtain ⟨e, he, hee⟩ := List.mem_map.mp ha
      have := mapHas_false_keys hhas e he
      rw [hee] at this
      simp at this
    · unfold sumOrderIds
      rw [List.map_append, List.sum_append]
      simp only [List.map_cons, List.map_nil, List.sum_cons, List.sum_nil]
      show sumOrderIds st.map + ((newGroup cmap row).orderIds.length + 0) ≤ st.count + 1
      have : (newGroup cmap row).orderIds.length = 1 := rfl
      omega
    · intro e' he'
      rcases List.mem_append.mp he' with hm | hm
      · exact hne e' hm
      · rcases List.mem_singleton.mp hm with rfl
        show (newGroup cmap row).orderIds ≠ []
        simp [newGroup]

theorem countInv_fold {cmap : ColumnMap} {header : RawRow} :
    ∀ (rows : List RawRow) (st : PState), CountInv st →
      CountInv (rows.foldl (processRow cmap header) st) := by
  intro rows
  induction rows with
  | nil => intro st h; exact h
  | cons r rows ih => intro st h; exact ih _ (countInv_step h r)

theorem length_le_sum_of_one_le :
    ∀ l : List Nat, (∀ x ∈ l, 1 ≤ x) → l.length ≤ l.sum := by
  intro l
  induction l with
  | nil => intro _; simp
  | cons a l ih =>
      intro h
      have ha := h a (List.mem_cons_self _ _)
      have := ih (fun x hx => h x (List.mem_cons_of_mem _ hx))
      simp only [List.length_cons, List.sum_cons]
      omega

theorem all_eq_one :
    ∀ l : List Nat, (∀ x ∈ l, 1 ≤ x) → l.sum ≤ l.length → ∀ x ∈ l, x = 1 := by
  intro l
  induction l with
  | nil => intro _ _ x hx; simp at hx
  | cons a l ih =>
      intro h1 h2 x hx
      have ha := h1 a (List.mem_cons_self _ _)
      have hrest := length_le_sum_of_one_le l (fun y hy => h1 y (List.mem_cons_of_mem _ hy))
      simp only [List.sum_cons, List.length_cons] at h2
      rcases List.mem_cons.mp hx with rfl | hx
      · omega
      · exact ih (fun y hy => h1 y (List.mem_cons_of_mem _ hy)) (by omega) x hx

/-- When the processed-lines count does not exceed the number of groups, no
group has two order ids, so no merge entry is produced. -/
theorem no_merge_logs (cmap : ColumnMap) (header : RawRow) (rows : List RawRow)
    (h : (runRows cmap header rows).count ≤ (runRows cmap header rows).map.length) :
    buildGroupLogs ((runRows cmap header rows).map.map (·.2)) = [] := by
  have hinv : CountInv (runRows cmap header rows) := by
    apply countInv_fold
    refine ⟨List.nodup_nil, Nat.le_refl 0, ?_⟩
    intro e he
    exact absurd he (List.not_mem_nil e)
  obtain ⟨_, hsum, hne⟩ := hinv
  set m := (runRows cmap header rows).map with hm
  have hlens : ∀ x ∈ m.map (fun e => e.2.orderIds.length), 1 ≤ x := by
    intro x hx
    obtain ⟨e, he, hex⟩ := List.mem_map.mp hx
    have := hne e he
    have : 0 < e.2.orderIds.length := List.length_pos.mpr this
    omega
  have hall : ∀ x ∈ m.map (fun e => e.2.orderIds.length), x = 1 := by
    apply all_eq_one _ hlens
    show sumOrderIds m ≤ _
    calc sumOrderIds m ≤ (runRows cmap header rows).count := hsum
      _ ≤ m.length := h
      _ = (m.map (fun e => e.2.orderIds.length)).length := by rw [List.length_map]
  apply List.filterMap_eq_nil_iff.mpr
  intro g hg
  obtain ⟨e, he, heg⟩ := List.mem_map.mp hg
  have h1 : e.2.orderIds.length = 1 :=
    hall _ (List.mem_map_of_mem (fun e => e.2.orderIds.length) he)
  rw [← heg]
  rw [if_neg (by omega)]

theorem buildRows_length : ∀ (s : Int) (gs : List Group),
    (buildRows s gs).length = gs.length := by
  intro s gs
  induction gs generalizing s with
  | nil => rfl
  | cons g gs ih => simp [buildRows, ih]

/-! ### C3 -/

/-- C3 counterexample.  On `dQty0` (one valid row plus one row passing the
four skip checks but with quantity 0) the emitted summary has type `warning`,
although the number of rows passing all five skip conditions (1) does not
exceed the number of groups (1), so the claim predicts `info`: the code's
`processedLinesCount` is incremented before the quantity check.  On `dMerge`
the summary (`warning`) is emitted before — not after — the `merge` entry:
line 335 prepends it to `logsToAppend`. -/
theorem summary_log_cx :
    ((processFile dQty0).logs.map (·.type) = [.warning, .info] ∧
      validatedRowCount dQty0 = 1 ∧ (groupsOf dQty0).length = 1) ∧
    ((processFile dMerge).logs.map (·.type) = [.warning, .merge, .info]) := by
  decide

/-- C3 (amended): on every run producing at least one group, exactly one
summary entry is emitted, placed before all per-group merge entries (and
before the final completion entry), and its type is `warning` exactly when the
count of rows passing the four skip checks (`processedLinesCount`, which
includes quantity-dropped rows) exceeds the number of groups, else `info`. -/
theorem summary_log_spec (d : List RawRow) (h2 : 2 ≤ d.length)
    (hh : headerIdxOf d ≠ -1) (hm : missingOf d = [])
    (hg : groupsOf d ≠ []) :
    (processFile d).logs =
      summaryEntry (finalStateOf d).count (groupsOf d).length ::
        (buildGroupLogs (groupsOf d) ++
          [⟨.info, "Processing complete. Ready to download."⟩]) ∧
    (summaryEntry (finalStateOf d).count (groupsOf d).length).type =
      (if (groupsOf d).length < (finalStateOf d).count then .warning else .info) := by
  constructor
  · unfold processFile processCore
    rw [if_neg (by omega), if_neg hh, if_neg (by rw [hm]; simp),
      if_neg (by rw [buildRows_length]; simpa using hg)]
    show logs1Of d ++ _ = _
    unfold logs1Of
    rw [buildRows_length]
    by_cases hc : (groupsOf d).length < (finalStateOf d).count
    · rw [if_pos hc, List.cons_append]
    · rw [if_neg hc]
      have hnil : buildGroupLogs (groupsOf d) = [] := by
        have hc' : (runRows (columnMapOf d) (headerRowOf d) (dataRowsOf d)).count ≤
            (runRows (columnMapOf d) (headerRowOf d) (dataRowsOf d)).map.length := by
          unfold groupsOf finalStateOf at hc
          rw [List.length_map] at hc
          omega
        unfold groupsOf finalStateOf
        exact no_merge_logs _ _ _ hc'
      rw [hnil]
      rfl
  · unfold summaryEntry
    by_cases hc : (groupsOf d).length < (finalStateOf d).count
    · rw [if_pos hc, if_pos hc]
    · rw [if_neg hc, if_neg hc]

/-- Witness for C3 (amended) at the concrete merging input. -/
theorem summary_log_spec_witness :
    (processFile dMerge).logs =
      summaryEntry (finalStateOf dMerge).count (groupsOf dMerge).length ::
        (buildGroupLogs (groupsOf dMerge) ++
          [⟨.info, "Processing complete. Ready to download."⟩]) ∧
    (summaryEntry (finalStateOf dMerge).count (groupsOf dMerge).length).type =
      (if (groupsOf dMerge).length < (finalStateOf dMerge).count then .warning
       else .info) :=
  summary_log_spec dMerge (by decide) (by decide) (by decide) (by decide)

/-! ### C4 -/

/-- The four fatal conditions of the spec. -/
def fatalCondition (d : List RawRow) : Prop :=
  d.length < 2 ∨ headerIdxOf d = -1 ∨ missingOf d ≠ [] ∨ groupsOf d = []

theorem summaryEntry_type_ne_error (c g : Nat) :
    (summaryEntry c g).type ≠ .error := by
  unfold summaryEntry
  by_cases h : g < c
  · rw [if_pos h]; simp
  · rw [if_neg h]; simp

theorem buildGroupLogs_types (gs : List Group) :
    ∀ e ∈ buildGroupLogs gs, e.type = .merge := by
  intro e he
  obtain ⟨g, _, hfe⟩ := List.mem_filterMap.mp he
  by_cases h : 1 < g.orderIds.length
  · rw [if_pos h] at hfe
    cases hfe
    rfl
  · rw [if_neg h] at hfe
    cases hfe

theorem filter_error_logs1 (d : List RawRow) :
    (logs1Of d).filter (fun e => e.type == .error) = [] := by
  apply List.filter_eq_nil_iff.mpr
  intro e he
  unfold logs1Of at he
  by_cases hc : (buildRows 1 (groupsOf d)).length < (finalStateOf d).count
  · rw [if_pos hc] at he
    rcases List.mem_cons.mp he with rfl | he
    · simpa using summaryEntry_type_ne_error _ _
    · have := buildGroupLogs_types _ _ he
      simp [this]
  · rw [if_neg hc] at he
    rcases List.mem_singleton.mp he with rfl
    simpa using summaryEntry_type_ne_error _ _

/-- C4: the run aborts with a single user-visible error log and no output
table exactly when one of the four fatal conditions holds (fewer than 2 rows,
header not found, a required column unresolved, zero groups); no other
condition aborts. -/
theorem abort_iff_fatal (d : List RawRow) :
    ((processFile d).output = none ∧
      ((processFile d).logs.filter (fun e => e.type == .error)).length = 1) ↔
    fatalCondition d := by
  unfold processFile processCore fatalCondition
  by_cases h1 : d.length < 2
  · rw [if_pos h1]
    constructor
    · intro _; exact Or.inl h1
    · intro _; exact ⟨rfl, rfl⟩
  · rw [if_neg h1]
    by_cases hh : headerIdxOf d = -1
    · rw [if_pos hh]
      constructor
      · intro _; exact Or.inr (Or.inl hh)
      · intro _; exact ⟨rfl, rfl⟩
    · rw [if_neg hh]
      by_cases hm : 0 < (missingOf d).length
      · rw [if_pos hm]
        constructor
        · intro _
          refine Or.inr (Or.inr (Or.inl ?_))
          intro hc
          rw [hc] at hm
          simp at hm
        · intro _; exact ⟨rfl, rfl⟩
      · rw [if_neg hm]
        have hmnil : missingOf d = [] := by
          cases hme : missingOf d with
          | nil => rfl
          | cons a l => rw [hme] at hm; simp at hm
        by_cases hg : (buildRows 1 (groupsOf d)).length = 0
        · rw [if_pos hg]
          have hgnil : groupsOf d = [] := by
            rw [buildRows_length] at hg
            exact List.length_eq_zero.mp hg
          constructor
          · intro _
            exact Or.inr (Or.inr (Or.inr hgnil))
          · intro _
            refine ⟨rfl, ?_⟩
            dsimp only
            rw [List.filter_append, filter_error_logs1]
            rfl
        · rw [if_neg hg]
          have hgne : groupsOf d ≠ [] := by
            intro hc
            rw [buildRows_length, hc] at hg
            exact hg rfl
          constructor
          · intro ⟨hout, _⟩
            exact absurd hout (by simp)
          · intro hfatal
            rcases hfatal with hc | hc | hc | hc
            · exact absurd hc h1
            · exact absurd hc hh
            · exact absurd hc (by rw [hmnil]; simp)
            · exact absurd hc hgne

/-! ### C2 -/

/-- Modelled from the spec: the per-row cell sequence exactly as claim C2
enumerates it — sequence, 9, 1800800001, two blanks, phone, zip, address,
name, THREE blanks, sender zip, sender address, sender name, products, 20,
blank, 0, 0, order ids (21 cells in total). -/
def claimRowCells (seq : Int) (g : Group) : List OutCell :=
  [.num seq, .num 9, .num 1800800001, .str "", .str "",
   .str g.receiver.phone, .str g.receiver.zip, .str g.receiver.address,
   .str g.receiver.name,
   .str "", .str "", .str "",
   .str "455-0065", .str "名古屋市港区本宮新町86", .str "AIRUPA物流センター",
   .str (joinSep "\n" g.products), .num 20, .str "",
   .num 0, .num 0, .str (joinSep "\n" g.orderIds)]

/-- A concrete group used to evaluate the output row shape. -/
def gOut : Group :=
  ⟨"0312345678|123-4567|Addr|N1", ["OA"],
    ⟨"N1", "0312345678", "123-4567", "Addr"⟩, ["Box*1"]⟩

/-- C2 counterexample: the emitted row has 22 cells with FOUR blank cells
between the receiver name and the sender zip (columns J, K, L, M), while the
claim's enumeration ("three blank cells") yields only 21 cells; the two
sequences differ. -/
theorem outputRow_claim_cx :
    rowToArray (makeRowData 1 gOut) ≠ claimRowCells 1 gOut ∧
    (rowToArray (makeRowData 1 gOut)).length = 22 ∧
    (claimRowCells 1 gOut).length = 21 := by decide

/-- C2 (amended): each emitted output row's 22 cells are, in order: sequence;
9; 1800800001; two blanks; phone; zip; address; name; FOUR blanks; sender zip
455-0065; sender address; sender name; newline-joined products; 20; blank; 0;
0; newline-joined order ids. -/
theorem outputRow_cells (seq : Int) (g : Group) :
    rowToArray (makeRowData seq g) =
      [.num seq, .num 9, .num 1800800001, .str "", .str "",
       .str g.receiver.phone, .str g.receiver.zip, .str g.receiver.address,
       .str g.receiver.name,
       .str "", .str "", .str "", .str "",
       .str "455-0065", .str "名古屋市港区本宮新町86", .str "AIRUPA物流センター",
       .str (joinSep "\n" g.products), .num 20, .str "",
       .num 0, .num 0, .str (joinSep "\n" g.orderIds)] := rfl

/-! ### C9 -/

/-- C9: the core transform is a pure function of its input rows — two runs on
the same rows produce identical output tables and identical log sequences. -/
theorem processFile_deterministic (d : List RawRow) (r1 r2 : RunResult)
    (h1 : processFile d = r1) (h2 : processFile d = r2) :
    r1.output = r2.output ∧ r1.logs = r2.logs := by
  subst h1
  subst h2
  exact ⟨rfl, rfl⟩

/-- Witness for C9 at a concrete input. -/
theorem processFile_deterministic_witness :
    (processFile dMerge).output = (processFile dMerge).output ∧
    (processFile dMerge).logs = (processFile dMerge).logs :=
  processFile_deterministic dMerge _ _ rfl rfl

end TikTokOrderProcessor
